import Mathlib

/-
  Verification of the spil structured-identifier (Sid) engine.

  Shallow embedding of the data model and operations of:
    - src/spil/sid/sid.py        (StringSid, TypedSid, DataSid, Sid)
    - src/spil/sid/read/finder.py (Finder.find, find_one, exists)
  with the template and pattern data of src/hamlet_conf/sid_conf.py.

  The resolver core (sid_factory, sid_resolver, unfold_search) is not part of
  the given sources; where needed it is modelled from the spec (marked with
  doc comments starting with: Modelled from the spec).
-/

namespace Spil

/-! ## Ordered dictionaries (Python dict with insertion order) -/

/-- A Python ordered dict of string fields: association list in insertion
order, keys unique by construction of dict operations. -/
abbrev Fields := List (String × String)

/-- Keys of the dict, in insertion order (Python dict.keys()). -/
def dkeys (d : Fields) : List String := d.map Prod.fst

/-- Values of the dict, in insertion order (Python dict.values()). -/
def dvals (d : Fields) : List String := d.map Prod.snd

/-- Python d.get(k): value of the first entry with key k, none if absent. -/
def dget (d : Fields) (k : String) : Option String :=
  (d.find? (fun p => p.1 == k)).map Prod.snd

/-- Python `k in d` membership test. -/
def hasKey (d : Fields) (k : String) : Bool := (dkeys d).contains k

/-- Python d[k] = v: update in place when the key is present, else append. -/
def dset (d : Fields) (k v : String) : Fields :=
  if hasKey d k then d.map (fun p => if p.1 == k then (k, v) else p)
  else d ++ [(k, v)]

/-- Python d.pop(k): remove the entry with key k. -/
def dpop (d : Fields) (k : String) : Fields := d.filter (fun p => p.1 != k)

/-- Python d.update(kv): set each pair of kv in order. -/
def dupdate (d : Fields) (kv : Fields) : Fields :=
  kv.foldl (fun acc p => dset acc p.1 p.2) d

/-! ## Strings: helpers mirroring the Python string operations used -/

/-- The needle list is an initial run of the hay list (str.startswith). -/
def leadMatch : List Char → List Char → Bool
  | [], _ => true
  | _ :: _, [] => false
  | c :: cs, d :: ds => c == d && leadMatch cs ds

/-- The needle occurs contiguously inside the hay (Python: needle in hay). -/
def subOccurs (needle : List Char) : List Char → Bool
  | [] => needle.isEmpty
  | c :: rest => leadMatch needle (c :: rest) || subOccurs needle rest

/-- Python hay contains needle as substring. -/
def strHas (hay needle : String) : Bool := subOccurs needle.toList hay.toList

/-- Python string.split(sep) for the single-character separator used by the
conf (sip is the slash, src/hamlet_conf/sid_conf.py line 2). -/
def splitSlash : List Char → List (List Char)
  | [] => [[]]
  | c :: rest =>
    let r := splitSlash rest
    if c == '/' then [] :: r
    else
      match r with
      | h :: t => (c :: h) :: t
      | [] => [[c]]

/-- Segments of a sid string, split on the separator. -/
def segsOf (s : String) : List String := (splitSlash s.toList).map List.asString

/-- Python sep.join for the slash separator. -/
def joinSlash : List String → String
  | [] => ""
  | [s] => s
  | s :: rest => s ++ "/" ++ joinSlash rest

/-- Python string comparison: lexicographic over code points. -/
def listLtb : List Char → List Char → Bool
  | [], [] => false
  | [], _ :: _ => true
  | _ :: _, [] => false
  | c :: cs, d :: ds => if c < d then true else if d < c then false else listLtb cs ds

/-- Python a < b on strings. -/
def strLtb (a b : String) : Bool := listLtb a.toList b.toList

/-! ## Configuration data (src/hamlet_conf/sid_conf.py) -/

/-- The sid separator sip (sid_conf.py line 2). -/
def sip : String := "/"

/-- Search symbols. Modelled from the spec: conf.search_symbols is loaded by
the missing global configuration; the source docstring of is_search
(sid.py line 142) lists them as the star, comma, greater, less and
double-star symbols, matching spec section 6. -/
def searchSymbols : List String := ["*", ",", ">", "<", "**"]

def projects : List String := ["hamlet"]
def asset_tasks : List String := ["art", "model", "surface", "rig"]
def shot_tasks : List String := ["board", "layout", "anim", "fx", "render", "comp"]
def asset_types : List String := ["char", "location", "prop", "fx"]
def extensions_scene : List String := ["ma", "mb", "hip", "blend", "hou", "maya", "psd", "nk"]
def extensions_cache : List String := ["abc", "json", "fur", "grm", "vdb", "cache"]
def extensions_movie : List String := ["mp4", "mov", "avi", "movie"]

/-- A compiled per-field validator (sid_conf.py key_patterns): a fixed
enumeration, a literal-prefix-plus-digit-count rule, or a free value.
Wildcard acceptance is part of ruleMatch. -/
inductive FieldRule
  | enum (vs : List String)
  | digits (pre : String) (n : Nat)
  | free
deriving DecidableEq

/-- Whether a segment value satisfies a field rule. Every rule also accepts
the star and greater symbols, as in the key_patterns regexes of
sid_conf.py. A free field (no configured pattern) accepts any non-empty
value without the separator. -/
def ruleMatch : FieldRule → String → Bool
  | .enum vs, v => v == "*" || v == ">" || vs.contains v
  | .digits pre n, v =>
      v == "*" || v == ">" ||
      (leadMatch pre.toList v.toList &&
        (v.toList.drop pre.toList.length).length == n &&
        (v.toList.drop pre.toList.length).all Char.isDigit)
  | .free, v => v != "" && !(v.toList.contains '/')

/-- A compiled template: type name and ordered field names with their
validators (sid_templates of sid_conf.py after pattern replacement). -/
structure Template where
  name : String
  tfields : List (String × FieldRule)
deriving DecidableEq

def ruleProject : FieldRule := .enum projects
def ruleTypeA : FieldRule := .enum ["a"]
def ruleTypeS : FieldRule := .enum ["s"]
def ruleAssettype : FieldRule := .enum asset_types
def ruleAssetTask : FieldRule := .enum asset_tasks
def ruleShotTask : FieldRule := .enum shot_tasks
def ruleSequence : FieldRule := .digits "sq" 3
def ruleShot : FieldRule := .digits "sh" 4
def ruleVersion : FieldRule := .digits "v" 3
def ruleState : FieldRule := .enum ["w", "p"]
def ruleExtScene : FieldRule := .enum extensions_scene
def ruleExtCache : FieldRule := .enum extensions_cache
def ruleExtMovie : FieldRule := .enum extensions_movie

def assetChain : List (String × FieldRule) :=
  [("project", ruleProject), ("type", ruleTypeA), ("assettype", ruleAssettype),
   ("asset", .free), ("task", ruleAssetTask), ("version", ruleVersion),
   ("state", ruleState)]

def shotChain : List (String × FieldRule) :=
  [("project", ruleProject), ("type", ruleTypeS), ("sequence", ruleSequence),
   ("shot", ruleShot), ("task", ruleShotTask), ("version", ruleVersion),
   ("state", ruleState)]

/-- The compiled template table. Modelled from the spec: the declared
templates of sid_conf.py with the key_patterns applied, completed by the
extrapolated ancestor templates of the two leaf types listed in
to_extrapolate (spec section 4.2); order follows the declaration order of
sid_conf.py with each family's extrapolated ancestors after its leaves. -/
def allTemplates : List Template :=
  [⟨"asset__file", assetChain ++ [("ext", ruleExtScene)]⟩,
   ⟨"asset__movie_file", assetChain ++ [("ext", ruleExtMovie)]⟩,
   ⟨"asset__cache_file", assetChain ++ [("ext", ruleExtCache)]⟩,
   ⟨"asset__state", assetChain⟩,
   ⟨"asset__version", assetChain.take 6⟩,
   ⟨"asset__task", assetChain.take 5⟩,
   ⟨"asset__asset", assetChain.take 4⟩,
   ⟨"asset__assettype", assetChain.take 3⟩,
   ⟨"asset", assetChain.take 2⟩,
   ⟨"shot__file", shotChain ++ [("ext", ruleExtScene)]⟩,
   ⟨"shot__movie_file", shotChain ++ [("ext", ruleExtMovie)]⟩,
   ⟨"shot__cache_file", shotChain ++ [("ext", ruleExtCache)]⟩,
   ⟨"shot__cache_node_file", shotChain ++ [("node", .free), ("ext", ruleExtCache)]⟩,
   ⟨"shot__cache_node", shotChain ++ [("node", .free)]⟩,
   ⟨"shot__state", shotChain⟩,
   ⟨"shot__version", shotChain.take 6⟩,
   ⟨"shot__task", shotChain.take 5⟩,
   ⟨"shot__shot", shotChain.take 4⟩,
   ⟨"shot__sequence", shotChain.take 3⟩,
   ⟨"shot", shotChain.take 2⟩,
   ⟨"project", [("project", ruleProject)]⟩]

/-! ## The Sid value (sid.py: StringSid and TypedSid state) -/

/-- A Sid value: bare string, type name (empty when untyped), and the
ordered fields dict (empty when untyped). Mirrors the state set by
TypedSid init (sid.py lines 204 to 212). -/
structure Sid where
  string : String
  type : String
  fields : Fields
deriving DecidableEq

/-- The empty Sid, result of Sid() with no arguments. -/
def emptySid : Sid := ⟨"", "", []⟩

/-- full_string property (sid.py lines 253 to 270): type colon string when
typed, else the bare string. -/
def Sid.full_string (x : Sid) : String :=
  (if x.type != "" then x.type ++ ":" else "") ++ x.string

/-- Python truthiness of a Sid: via TypedSid len (sid.py lines 375 to 382),
the number of field keys; truthy iff the fields dict is non-empty. -/
def Sid.truthy (x : Sid) : Bool := !x.fields.isEmpty

/-- is_search (sid.py lines 139 to 158): some search symbol occurs in the
bare string. -/
def Sid.is_searchb (x : Sid) : Bool :=
  searchSymbols.any (fun sym => strHas x.string sym)

/-- StringSid eq on two Sids (sid.py lines 169 to 173): compares the
full_string forms. -/
def sidEqb (self other : Sid) : Bool := other.full_string == self.full_string

/-- StringSid lt (sid.py lines 175 to 176): compares str(self) with
str(other), which are the bare strings. -/
def sidLtb (self other : Sid) : Bool := strLtb self.string other.string

/-! ## Resolution. Modelled from the spec (the resolver core is not among
the given sources). -/

/-- Modelled from the spec (section 4.3 Parse, for the missing
sid_factory and sid_resolver): split the input on the separator, try the
templates with the same field count in declaration order, first template
whose validators accept every segment wins; zero matches give the untyped
identifier carrying only the raw string. -/
def sidFromString (input : String) : Sid :=
  let segs := segsOf input
  match allTemplates.find? (fun t =>
      t.tfields.length == segs.length &&
      (t.tfields.zip segs).all (fun pr => ruleMatch pr.1.2 pr.2)) with
  | some t => ⟨input, t.name, (t.tfields.map Prod.fst).zip segs⟩
  | none => ⟨input, "", []⟩

/-- Modelled from the spec (section 4.3 Render, for the missing
sid_factory and sid_resolver): find the template whose field-name sequence
is exactly the key sequence of the mapping and render the values joined by
the separator; when none matches the result is the untyped identifier
carrying only the raw joined string (spec section 4.3: resolution that
satisfies zero templates returns an untyped identifier carrying only the
raw string). -/
def dictToSid (d : Fields) : Sid :=
  let raw := joinSlash (dvals d)
  match allTemplates.find? (fun t => t.tfields.map Prod.fst == dkeys d) with
  | some t => ⟨raw, t.name, d⟩
  | none => ⟨raw, "", []⟩

/-- Modelled from the spec: constructing a Sid from an existing Sid
(Sid(sid) in the factory) re-resolves its full string and round-trips to
an equal identifier (spec sections 3 and 8). -/
def sidOfSid (s : Sid) : Sid := s

/-- copy (sid.py lines 124 to 137): Sid(self.full_string); by the
round-trip modelling this is the identifier itself. -/
def Sid.copy (x : Sid) : Sid := x

/-! ## TypedSid operations (sid.py) -/

/-- keytype property (sid.py lines 301 to 342): last key of the fields
dict, none when the Sid is undefined. -/
def Sid.keytype (x : Sid) : Option String :=
  if x.fields.isEmpty then none else (dkeys x.fields).getLast?

/-- get (sid.py lines 384 to 405): value of the key in the fields dict,
none when the Sid is undefined. -/
def Sid.get (x : Sid) (k : String) : Option String :=
  if x.fields.isEmpty then none else dget x.fields k

/-- The field-copying loop of get_as (sid.py lines 438 to 443): walk the
items in order into a fresh dict, returning it at the given key; none
models falling through the loop without returning. -/
def getAsCore : Fields → String → Fields → Option Fields
  | [], _, _ => none
  | (k, v) :: rest, key, acc =>
    let acc2 := dset acc k v
    if k == key then some acc2 else getAsCore rest key acc2

/-- get_as (sid.py lines 407 to 444). The error case models the
SpilException raised when the loop exits without returning. -/
def Sid.get_as (x : Sid) (key : String) : Except String Sid :=
  if x.fields.isEmpty then .ok emptySid
  else if !(hasKey x.fields key) then .ok emptySid
  else
    match getAsCore x.fields key [] with
    | some fs => .ok (dictToSid fs)
    | none => .error "[Sid][get_as] Unexpected error"

/-- get_as as a plain Sid, for the callers; the error case is proved
unreachable. -/
def Sid.getAsS (x : Sid) (key : String) : Sid :=
  match x.get_as key with
  | .ok s => s
  | .error _ => emptySid

/-- parent property (sid.py lines 344 to 373): empty Sid when undefined, a
copy at the single-field root, else get_as at the second to last key. -/
def Sid.parent (x : Sid) : Sid :=
  if x.fields.isEmpty then emptySid
  else if x.fields.length == 1 then x.copy
  else x.getAsS ((dkeys x.fields).getD (x.fields.length - 2) "")

/-- The removal loop of get_with (sid.py lines 500 to 504): pop every key
mapped to None from the copied dict; none models the KeyError that
dict.pop raises when such a key is absent. -/
def popNones (d : Fields) : List (String × Option String) → Option Fields
  | [] => some d
  | (k, none) :: rest => if hasKey d k then popNones (dpop d k) rest else none
  | (_, some _) :: rest => popNones d rest

/-- The kwargs that survive the removal loop of get_with: pairs with a
real value, in order. -/
def somePairs (kwargs : List (String × Option String)) : Fields :=
  kwargs.filterMap (fun p => p.2.map (fun v => (p.1, v)))

/-- The overlay computation of get_with (sid.py lines 495 to 506): copy
the fields, pop the None valued keys, update with the remaining kwargs. -/
def overlayDict (d : Fields) (kwargs : List (String × Option String)) : Option Fields :=
  (popNones d kwargs).map (fun dc => dupdate dc (somePairs kwargs))

/-- get_with (sid.py lines 446 to 512), field-overlay path (the key and
value arguments join kwargs; the uri branch delegates to the string
factory and is outside this embedding). none models the uncaught KeyError
of the removal loop. -/
def Sid.get_with (x : Sid) (kwargs : List (String × Option String)) : Option Sid :=
  if x.string != "" && x.fields.isEmpty then some emptySid
  else
    match overlayDict x.fields kwargs with
    | none => none
    | some d =>
      let ns := dictToSid d
      if ns.is_searchb && !ns.truthy then
        some (sidFromString (joinSlash (dvals d)))
      else
        some ns

/-- DataSid exists (sid.py lines 781 to 804): False when the Sid is
undefined, else the delegated FindInAll().exists lookup (abstracted as a
parameter, that finder is not among the given sources). -/
def Sid.existsb (findall : Sid → Bool) (x : Sid) : Bool :=
  if x.fields.isEmpty then false else findall x

/-- match (sid.py lines 557 to 589): identical Sids match before any field
or finder based check; undefined Sids never match otherwise; the final
FindInList based check is abstracted as a parameter (that finder is not
among the given sources). -/
def Sid.matchb (fallback : Sid → Sid → Bool) (self searchSid : Sid) : Bool :=
  if sidEqb (sidOfSid searchSid) self then true
  else if self.fields.isEmpty then false
  else fallback self searchSid

/-! ## Finder (src/spil/sid/read/finder.py) -/

/-- Finder.find (finder.py lines 52 to 82): resolve the search input; a
truthy non-search Sid is passed alone to do_find, anything else goes
through unfolding first. do_find is abstract in the source and a
parameter here; unfold_search is not among the given sources and is a
parameter as well. Results are the string-form traversal. -/
def Finder.find (dofind : List Sid → List String) (unfold : String → List Sid)
    (searchSid : String) : List String :=
  let sid := sidFromString searchSid
  if sid.truthy && !sid.is_searchb then dofind [sid]
  else dofind (unfold searchSid)

/-- Finder.find_one over the string-form traversal (finder.py lines 101 to
126): first item of find with as_sid false. The first helper of the
missing read utilities is modelled from the spec as the head of the lazy
sequence. -/
def Finder.find_one (dofind : List Sid → List String) (unfold : String → List Sid)
    (searchSid : String) : Option String :=
  (Finder.find dofind unfold searchSid).head?

/-- Finder.find_one with as_sid true: the found string converted through
the factory, the empty Sid when nothing is found (Sid(None) is Sid()). -/
def Finder.find_one_sid (dofind : List Sid → List String) (unfold : String → List Sid)
    (searchSid : String) : Sid :=
  match Finder.find_one dofind unfold searchSid with
  | some s => sidFromString s
  | none => emptySid

/-- Finder.exists (finder.py lines 128 to 149): Python bool of find_one
over strings; None and the empty string are falsy. -/
def Finder.existsb (dofind : List Sid → List String) (unfold : String → List Sid)
    (searchSid : String) : Bool :=
  match Finder.find_one dofind unfold searchSid with
  | some s => s != ""
  | none => false

/-! ## Heap model for the mutation claims

A minimal heap of dict objects, to state that the Sid operations copy
their field data instead of aliasing the internal dict: a store of dict
objects addressed by index, a Sid object holding a reference to its
internal fields dict, and the operations of sid.py translated with their
reads, copies and in-place writes made explicit. -/

/-- The heap: dict objects addressed by position. -/
abbrev Store := List Fields

/-- Read the dict object at a reference. -/
def readRef : Store → Nat → Fields
  | [], _ => []
  | d :: _, 0 => d
  | _ :: rest, n + 1 => readRef rest n

/-- Overwrite the dict object at a reference. -/
def writeRef : Store → Nat → Fields → Store
  | [], _, _ => []
  | _ :: rest, 0, dd => dd :: rest
  | d :: rest, n + 1, dd => d :: writeRef rest n dd

/-- Allocate a fresh dict object, returning its reference. -/
def alloc (st : Store) (d : Fields) : Nat × Store := (st.length, st ++ [d])

/-- The mutable state of a Python Sid instance: its two strings and the
reference to its internal fields dict. -/
structure SidObj where
  ostring : String
  otype : String
  fref : Nat

/-- In-place item assignment d[k] = v on the dict object at r. -/
def setItemH (st : Store) (r : Nat) (k v : String) : Store :=
  writeRef st r (dset (readRef st r) k v)

/-- The fields property (sid.py lines 237 to 251): returns a copy of the
internal dict, as a freshly allocated object. -/
def fieldsPropH (st : Store) (self : SidObj) : Nat × Store :=
  alloc st (readRef st self.fref)

/-- The copying loop of get_as (sid.py lines 438 to 442), writing the
walked items into the fresh dict at r until the key is reached. -/
def getAsLoopH (items : Fields) (key : String) (r : Nat) (st : Store) : Store :=
  match items with
  | [] => st
  | (k, v) :: rest =>
    let st2 := setItemH st r k v
    if k == key then st2 else getAsLoopH rest key r st2

/-- get_as in the heap model (found-key branch, sid.py lines 438 to 442):
allocate the fresh dict, run the copying loop into it, build the new Sid
from it. -/
def getAsH (st : Store) (self : SidObj) (key : String) : SidObj × Store :=
  let myF := readRef st self.fref
  let pr := alloc st []
  let st2 := getAsLoopH myF key pr.1 pr.2
  let s := dictToSid (readRef st2 pr.1)
  (⟨s.string, s.type, pr.1⟩, st2)

/-- The removal loop of get_with in the heap model: pops on the data copy
at r; none models the KeyError on an absent key. -/
def popLoopH (kwargs : List (String × Option String)) (r : Nat) (st : Store) :
    Option Store :=
  match kwargs with
  | [] => some st
  | (k, none) :: rest =>
      if hasKey (readRef st r) k then
        popLoopH rest r (writeRef st r (dpop (readRef st r) k))
      else none
  | (_, some _) :: rest => popLoopH rest r st

/-- The dict update of get_with in the heap model: in-place item
assignments on the data copy at r for the surviving kwargs. -/
def updLoopH (kwargs : List (String × Option String)) (r : Nat) (st : Store) :
    Store :=
  match kwargs with
  | [] => st
  | (k, some v) :: rest => updLoopH rest r (setItemH st r k v)
  | (_, none) :: rest => updLoopH rest r st

/-- get_with in the heap model (sid.py lines 487 to 512): the data copy is
a freshly allocated object, the pops and updates write that object, the
result Sid is built from it. -/
def getWithH (st : Store) (self : SidObj) (kwargs : List (String × Option String)) :
    Option (SidObj × Store) :=
  let myF := readRef st self.fref
  if self.ostring != "" && myF.isEmpty then
    let pr := alloc st []
    some (⟨"", "", pr.1⟩, pr.2)
  else
    let pr := alloc st myF
    match popLoopH kwargs pr.1 pr.2 with
    | none => none
    | some st2 =>
      let st3 := updLoopH kwargs pr.1 st2
      let s0 := dictToSid (readRef st3 pr.1)
      if s0.is_searchb && !s0.truthy then
        let s1 := sidFromString (joinSlash (dvals (readRef st3 pr.1)))
        let pr2 := alloc st3 s1.fields
        some (⟨s1.string, s1.type, pr2.1⟩, pr2.2)
      else
        some (⟨s0.string, s0.type, pr.1⟩, st3)

/-! ## General lemmas -/

theorem strAppend_cancel_right (a b c : String) (h : a ++ c = b ++ c) : a = b := by
  have hd : a.data ++ c.data = b.data ++ c.data := by
    have h2 := congrArg String.data h
    simpa [String.data_append] using h2
  have h3 : a.data = b.data := List.append_cancel_right hd
  cases a
  cases b
  exact congrArg String.mk h3

theorem full_string_if (x : Sid) :
    x.full_string = if x.type = "" then x.string else (x.type ++ ":") ++ x.string := by
  by_cases h : x.type = "" <;> simp [Sid.full_string, h]

theorem full_string_type_inj (x y : Sid) (hs : x.string = y.string)
    (hf : x.full_string = y.full_string) : x.type = y.type := by
  have hcolon : (":" : String).length = 1 := rfl
  rw [full_string_if, full_string_if] at hf
  split_ifs at hf with hx hy hy
  · rw [hx, hy]
  · exfalso
    have hl := congrArg String.length hf
    rw [hs, String.length_append, String.length_append, hcolon] at hl
    omega
  · exfalso
    have hl := congrArg String.length hf
    rw [hs, String.length_append, String.length_append, hcolon] at hl
    omega
  · rw [hs] at hf
    have h4 := strAppend_cancel_right _ _ _ hf
    exact strAppend_cancel_right _ _ _ h4

theorem listLtb_irrefl : ∀ l : List Char, listLtb l l = false := by
  intro l
  induction l with
  | nil => rfl
  | cons c cs ih => simp [listLtb, lt_irrefl, ih]

/-! ## Claim theorems: equality and ordering (C1) -/

/-- C1, counterexample. The claim states that the less-than ordering
compares the canonical full_string form. At these two Sid values, which
share the bare string but differ in type, the full_string form of the
first precedes that of the second, yet the implemented less-than (which
compares the bare strings, sid.py line 176) answers false. -/
theorem lt_not_on_full_string_cx :
    sidLtb ⟨"hamlet/a", "asset", [("project", "hamlet"), ("type", "a")]⟩
           ⟨"hamlet/a", "shot", [("project", "hamlet"), ("type", "s")]⟩ = false
    ∧ strLtb (Sid.full_string ⟨"hamlet/a", "asset", [("project", "hamlet"), ("type", "a")]⟩)
             (Sid.full_string ⟨"hamlet/a", "shot", [("project", "hamlet"), ("type", "s")]⟩) = true
    ∧ sidEqb ⟨"hamlet/a", "asset", [("project", "hamlet"), ("type", "a")]⟩
             ⟨"hamlet/a", "shot", [("project", "hamlet"), ("type", "s")]⟩ = false := by
  decide

/-- C1, amended. Equality of two Sids compares the canonical full_string
form, so identically rendered Sids of different types are unequal; the
less-than ordering however compares the bare strings, so the relative
order of such a pair is not decided by the typed form: neither is less
than the other. -/
theorem eq_on_full_string_lt_on_bare (x y : Sid) :
    (sidEqb x y = true ↔ x.full_string = y.full_string)
    ∧ (sidLtb x y = strLtb x.string y.string)
    ∧ (x.string = y.string → x.type ≠ y.type →
        sidEqb x y = false ∧ sidLtb x y = false ∧ sidLtb y x = false) := by
  refine ⟨?_, rfl, ?_⟩
  · unfold sidEqb
    constructor
    · intro h
      exact (eq_of_beq h).symm
    · intro h
      rw [h]
      exact beq_self_eq_true _
  · intro hs ht
    refine ⟨?_, ?_, ?_⟩
    · by_contra h
      have h1 : sidEqb x y = true := by
        cases h2 : sidEqb x y
        · exact absurd h2 h
        · rfl
      have h3 : y.full_string = x.full_string := eq_of_beq h1
      exact ht (full_string_type_inj x y hs h3.symm)
    · unfold sidLtb strLtb
      rw [hs]
      exact listLtb_irrefl _
    · unfold sidLtb strLtb
      rw [hs]
      exact listLtb_irrefl _

/-- C1, witness for the amended theorem at a concrete same-string,
different-type pair. -/
theorem eq_on_full_string_lt_on_bare_witness :
    sidEqb ⟨"hamlet/a", "asset", []⟩ ⟨"hamlet/a", "shot", []⟩ = false
    ∧ sidLtb ⟨"hamlet/a", "asset", []⟩ ⟨"hamlet/a", "shot", []⟩ = false
    ∧ sidLtb ⟨"hamlet/a", "shot", []⟩ ⟨"hamlet/a", "asset", []⟩ = false :=
  (eq_on_full_string_lt_on_bare ⟨"hamlet/a", "asset", []⟩ ⟨"hamlet/a", "shot", []⟩).2.2
    rfl (by decide)

/-! ## Claim theorems: match reflexivity (C10) -/

/-- C10. Matching is reflexive: for every Sid, typed or untyped, matching
a search Sid equal to itself answers true, through the identity branch
that precedes any field or finder based check (sid.py lines 578 to 580). -/
theorem match_reflexive (fb : Sid → Sid → Bool) (x : Sid) :
    Sid.matchb fb x x = true := by
  unfold Sid.matchb sidOfSid sidEqb
  simp

/-! ## Claim theorems: Finder.find fast path (C2) -/

/-- C2. Finder.find passes a truthy, non-search resolved Sid as the single
candidate to do_find, and otherwise passes the unfolded candidate list of
the input, yielding the results of do_find either way (finder.py lines 73
to 82). -/
theorem find_fast_path_or_unfold (dofind : List Sid → List String)
    (unf : String → List Sid) (s : String) :
    ((sidFromString s).fields ≠ [] → (sidFromString s).is_searchb = false →
      Finder.find dofind unf s = dofind [sidFromString s])
    ∧ ((sidFromString s).fields = [] ∨ (sidFromString s).is_searchb = true →
      Finder.find dofind unf s = dofind (unf s)) := by
  constructor
  · intro h1 h2
    simp [Finder.find, Sid.truthy, h2, List.isEmpty_iff, h1]
  · intro h
    rcases h with h | h
    · simp [Finder.find, Sid.truthy, List.isEmpty_iff, h]
    · simp [Finder.find, Sid.truthy, h]

/-- C2, witness: at the typed non-search input the single resolved
candidate is searched; at an untyped input the unfolded candidates are
searched. -/
theorem find_fast_path_or_unfold_witness :
    (sidFromString "hamlet").fields ≠ []
    ∧ (sidFromString "hamlet").is_searchb = false
    ∧ Finder.find (fun l => l.map Sid.string) (fun _ => []) "hamlet"
        = (fun (l : List Sid) => l.map Sid.string) [sidFromString "hamlet"]
    ∧ (sidFromString "bla bla").fields = []
    ∧ Finder.find (fun l => l.map Sid.string) (fun _ => []) "bla bla"
        = (fun (l : List Sid) => l.map Sid.string) ((fun (_ : String) => ([] : List Sid)) "bla bla") :=
  ⟨by decide, by decide,
   (find_fast_path_or_unfold (fun l => l.map Sid.string) (fun _ => []) "hamlet").1
     (by decide) (by decide),
   by decide,
   (find_fast_path_or_unfold (fun l => l.map Sid.string) (fun _ => []) "bla bla").2
     (Or.inl (by decide))⟩

/-! ## Claim theorems: exists and find_one (C7) -/

/-- C7. Finder.exists is true exactly when find_one over the string-form
traversal yields a non-empty result; find_one is the first item of find,
converted through the factory only for the Sid-typed variant (finder.py
lines 101 to 149). -/
theorem exists_iff_find_one_nonempty (dofind : List Sid → List String)
    (unf : String → List Sid) (s : String) :
    (Finder.existsb dofind unf s = true ↔
      ∃ r, Finder.find_one dofind unf s = some r ∧ r ≠ "")
    ∧ Finder.find_one dofind unf s = (Finder.find dofind unf s).head?
    ∧ Finder.find_one_sid dofind unf s =
        (match (Finder.find dofind unf s).head? with
         | some r => sidFromString r
         | none => emptySid) := by
  refine ⟨?_, rfl, rfl⟩
  unfold Finder.existsb
  cases h : Finder.find_one dofind unf s with
  | none => simp
  | some r =>
    simp only [h]
    constructor
    · intro h2
      exact ⟨r, rfl, bne_iff_ne.mp h2⟩
    · rintro ⟨r2, hr2, hne⟩
      cases hr2
      simpa using hne

/-! ## Claim theorems: the get_as loop always returns (C8) -/

theorem getAsCore_isSome_of_mem :
    ∀ (l : Fields) (key : String) (acc : Fields), key ∈ dkeys l →
      (getAsCore l key acc).isSome = true := by
  intro l
  induction l with
  | nil => intro key acc h; simp [dkeys] at h
  | cons p t ih =>
    intro key acc h
    obtain ⟨k, v⟩ := p
    by_cases hk : (k == key) = true
    · simp [getAsCore, hk]
    · simp only [getAsCore, hk, if_false]
      apply ih
      simp only [dkeys, List.map_cons, List.mem_cons] at h
      rcases h with h | h
      · exact absurd (by simp [h]) hk
      · exact h

/-! ## Claim theorems: untyped Sids degrade (C3) -/

/-- C3, counterexample. The claim states that get_with on every untyped
Sid returns the empty Sid; but the guard of get_with (sid.py line 487)
requires a non-empty string, so the empty Sid, which is untyped, passes
through and an overlay on it produces a typed Sid (also the documented
behaviour, sid.py lines 475 to 476). -/
theorem untyped_get_with_not_always_empty_cx :
    emptySid.fields = []
    ∧ Sid.get_with emptySid [("project", some "hamlet")]
        = some ⟨"hamlet", "project", [("project", "hamlet")]⟩
    ∧ (⟨"hamlet", "project", [("project", "hamlet")]⟩ : Sid) ≠ emptySid := by
  decide

/-- C3, amended. An untyped Sid (empty fields dict) is falsy, and the
query operations degrade without raising: parent, get_as and get_with
give the empty Sid, get and keytype give none, exists gives false; for
get_with this holds for the untyped Sids with a non-empty string (the
empty Sid itself passes the guard and its overlay may produce a typed
Sid). -/
theorem untyped_ops_degrade (x : Sid) (h : x.fields = []) :
    x.truthy = false
    ∧ x.parent = emptySid
    ∧ (∀ k, x.get k = none)
    ∧ (∀ k, x.getAsS k = emptySid)
    ∧ x.keytype = none
    ∧ (∀ fa, Sid.existsb fa x = false)
    ∧ (x.string ≠ "" → ∀ kw, x.get_with kw = some emptySid) := by
  refine ⟨?_, ?_, ?_, ?_, ?_, ?_, ?_⟩
  · simp [Sid.truthy, h]
  · simp [Sid.parent, h]
  · intro k
    simp [Sid.get, h]
  · intro k
    simp [Sid.getAsS, Sid.get_as, h]
  · simp [Sid.keytype, h]
  · intro fa
    simp [Sid.existsb, h]
  · intro hs kw
    have hb : (x.string != "") = true := bne_iff_ne.mpr hs
    simp [Sid.get_with, h, hb]

/-- C3, witness at a concrete unresolvable string. -/
theorem untyped_ops_degrade_witness :
    Sid.truthy ⟨"bla/bla", "", []⟩ = false
    ∧ Sid.parent ⟨"bla/bla", "", []⟩ = emptySid
    ∧ Sid.get ⟨"bla/bla", "", []⟩ "project" = none
    ∧ Sid.getAsS ⟨"bla/bla", "", []⟩ "project" = emptySid
    ∧ Sid.keytype ⟨"bla/bla", "", []⟩ = none
    ∧ Sid.existsb (fun _ => true) ⟨"bla/bla", "", []⟩ = false
    ∧ Sid.get_with ⟨"bla/bla", "", []⟩ [("task", some "anim")] = some emptySid := by
  have T := untyped_ops_degrade ⟨"bla/bla", "", []⟩ rfl
  exact ⟨T.1, T.2.1, T.2.2.1 "project", T.2.2.2.1 "project", T.2.2.2.2.1,
    T.2.2.2.2.2.1 (fun _ => true), T.2.2.2.2.2.2 (by decide) [("task", some "anim")]⟩

/-- C8. When the key is present in the fields dict, the field-copying loop
of get_as returns before falling through, so the SpilException after the
loop (sid.py line 444) is never raised. -/
theorem get_as_no_raise (x : Sid) (key : String) (h : key ∈ dkeys x.fields) :
    (getAsCore x.fields key []).isSome = true
    ∧ ∀ e, x.get_as key ≠ .error e := by
  refine ⟨getAsCore_isSome_of_mem x.fields key [] h, ?_⟩
  intro e
  unfold Sid.get_as
  have hne : x.fields ≠ [] := by
    intro h2
    rw [h2] at h
    simp [dkeys] at h
  have hkey : hasKey x.fields key = true := by
    unfold hasKey
    exact List.elem_iff.mpr h
  rw [if_neg (by simp [List.isEmpty_iff, hne]), hkey]
  simp only [Bool.not_true, if_false]
  cases h2 : getAsCore x.fields key [] with
  | none =>
    have := getAsCore_isSome_of_mem x.fields key [] h
    rw [h2] at this
    simp at this
  | some fs => simp

/-- C8, witness at a concrete shot task Sid and the shot key. -/
theorem get_as_no_raise_witness :
    (getAsCore (sidFromString "hamlet/s/sq030/sh0100/anim").fields "shot" []).isSome = true
    ∧ (sidFromString "hamlet/s/sq030/sh0100/anim").get_as "shot"
        ≠ .error "[Sid][get_as] Unexpected error" :=
  ⟨(get_as_no_raise (sidFromString "hamlet/s/sq030/sh0100/anim") "shot" (by decide)).1,
   (get_as_no_raise (sidFromString "hamlet/s/sq030/sh0100/anim") "shot" (by decide)).2
     "[Sid][get_as] Unexpected error"⟩

/-! ## Lemmas on the get_as loop -/

theorem hasKey_true_iff (d : Fields) (k : String) :
    hasKey d k = true ↔ k ∈ dkeys d :=
  List.elem_iff

theorem hasKey_false_iff (d : Fields) (k : String) :
    hasKey d k = false ↔ k ∉ dkeys d := by
  constructor
  · intro h hc
    have h2 := (hasKey_true_iff d k).mpr hc
    rw [h2] at h
    cases h
  · intro h
    cases hc : hasKey d k
    · rfl
    · exact absurd ((hasKey_true_iff d k).mp hc) h

theorem dset_fresh (d : Fields) (k v : String) (hk : k ∉ dkeys d) :
    dset d k v = d ++ [(k, v)] := by
  unfold dset
  rw [(hasKey_false_iff d k).mpr hk]
  simp

theorem getAsCore_upto :
    ∀ (l1 : Fields) (k v : String) (l2 acc : Fields),
      (∀ p ∈ l1, p.1 ≠ k) →
      (∀ p ∈ l1, p.1 ∉ dkeys acc) →
      (dkeys l1).Nodup →
      k ∉ dkeys acc →
      getAsCore (l1 ++ (k, v) :: l2) k acc = some ((acc ++ l1) ++ [(k, v)]) := by
  intro l1
  induction l1 with
  | nil =>
    intro k v l2 acc h1 h2 h3 h4
    simp only [List.nil_append]
    unfold getAsCore
    rw [dset_fresh acc k v h4]
    simp
  | cons p t ih =>
    intro k v l2 acc h1 h2 h3 h4
    obtain ⟨k1, v1⟩ := p
    have hk1 : k1 ≠ k := h1 (k1, v1) (List.mem_cons_self _ _)
    have hk1acc : k1 ∉ dkeys acc := h2 (k1, v1) (List.mem_cons_self _ _)
    have h3' := List.nodup_cons.mp (show (k1 :: dkeys t).Nodup from h3)
    have hk1t : k1 ∉ dkeys t := h3'.1
    simp only [List.cons_append]
    unfold getAsCore
    rw [dset_fresh acc k1 v1 hk1acc, if_neg (by simp [hk1])]
    rw [ih k v l2 (acc ++ [(k1, v1)])
      (fun p hp => h1 p (List.mem_cons_of_mem _ hp))
      (fun p hp => by
        simp only [dkeys, List.map_append, List.map_cons, List.map_nil, List.mem_append,
          List.mem_singleton]
        rintro (hin | hin)
        · exact h2 p (List.mem_cons_of_mem _ hp) hin
        · exact hk1t (hin ▸ List.mem_map_of_mem Prod.fst hp))
      h3'.2
      (by
        simp only [dkeys, List.map_append, List.map_cons, List.map_nil, List.mem_append,
          List.mem_singleton]
        rintro (hin | hin)
        · exact h4 hin
        · exact hk1 hin.symm)]
    simp

theorem get_as_found (x : Sid) (l1 l2 : Fields) (k v : String)
    (hx : x.fields = l1 ++ (k, v) :: l2)
    (hnd : (dkeys x.fields).Nodup) :
    x.get_as k = .ok (dictToSid (l1 ++ [(k, v)])) := by
  have hksplit : dkeys x.fields = dkeys l1 ++ k :: dkeys l2 := by
    rw [hx]
    simp [dkeys]
  have hmem : k ∈ dkeys x.fields := by
    rw [hksplit]
    exact List.mem_append_right _ (List.mem_cons_self _ _)
  have hnd2 := hksplit ▸ hnd
  have hdisj := List.nodup_append.mp hnd2
  have hkl1 : k ∉ dkeys l1 := fun hc => hdisj.2.2 hc (List.mem_cons_self _ _)
  unfold Sid.get_as
  rw [if_neg (by
    simp only [List.isEmpty_iff]
    intro h2
    rw [h2] at hmem
    simp [dkeys] at hmem)]
  rw [(by unfold hasKey; exact List.elem_iff.mpr hmem : hasKey x.fields k = true)]
  simp only [Bool.not_true, if_false]
  rw [hx, getAsCore_upto l1 k v l2 []
    (fun p hp => fun hc => hkl1 (hc ▸ List.mem_map_of_mem Prod.fst hp))
    (fun p _ => by simp [dkeys])
    hdisj.1
    (by simp [dkeys])]
  simp

/-- Every template of the configuration has a non-empty type name. -/
theorem allTemplates_name_ne : ∀ t ∈ allTemplates, t.name ≠ "" := by decide

/-! ## Claim theorems: get_as truncation (C6) -/

/-- C6. When the key occurs in the fields of a typed Sid (with the dict
invariant of unique keys, and the truncated field sequence known to the
template table, as for every resolved Sid), get_as returns a Sid whose
fields are exactly the ordered prefix up to and including that key; when
the key is absent or the Sid is untyped, get_as returns the empty Sid
(sid.py lines 407 to 444). -/
theorem get_as_upto (x : Sid) (k : String) :
    (∀ l1 v l2, x.fields = l1 ++ (k, v) :: l2 → (dkeys x.fields).Nodup →
      (allTemplates.find? (fun t =>
        t.tfields.map Prod.fst == dkeys (l1 ++ [(k, v)]))).isSome = true →
      (x.getAsS k).fields = l1 ++ [(k, v)] ∧ (x.getAsS k).type ≠ "")
    ∧ (k ∉ dkeys x.fields → x.getAsS k = emptySid)
    ∧ (x.fields = [] → x.getAsS k = emptySid) := by
  refine ⟨?_, ?_, ?_⟩
  · intro l1 v l2 hx hnd hfind
    have hok := get_as_found x l1 l2 k v hx hnd
    obtain ⟨t, hts⟩ := Option.isSome_iff_exists.mp hfind
    have htm : t ∈ allTemplates := List.mem_of_find?_eq_some hts
    unfold Sid.getAsS
    rw [hok]
    unfold dictToSid
    rw [hts]
    exact ⟨rfl, allTemplates_name_ne t htm⟩
  · intro hk
    unfold Sid.getAsS Sid.get_as
    by_cases he : x.fields.isEmpty
    · rw [if_pos he]
    · rw [if_neg he, (hasKey_false_iff x.fields k).mpr hk]
      simp
  · intro he
    unfold Sid.getAsS Sid.get_as
    rw [if_pos (by simp [he])]

/-- C6, witness: truncating a concrete asset task Sid at the asset key, a
missing key, and an untyped Sid. -/
theorem get_as_upto_witness :
    ((sidFromString "hamlet/a/char/ophelia/model").getAsS "asset").fields
      = [("project", "hamlet"), ("type", "a"), ("assettype", "char")] ++ [("asset", "ophelia")]
    ∧ ((sidFromString "hamlet/a/char/ophelia/model").getAsS "asset").type ≠ ""
    ∧ (sidFromString "hamlet/a/char/ophelia/model").getAsS "shot" = emptySid
    ∧ Sid.getAsS ⟨"bla/bla", "", []⟩ "asset" = emptySid := by
  have W := get_as_upto (sidFromString "hamlet/a/char/ophelia/model") "asset"
  have W1 := W.1 [("project", "hamlet"), ("type", "a"), ("assettype", "char")] "ophelia"
    [("task", "model")] (by decide) (by decide) (by decide)
  have W2 := (get_as_upto (sidFromString "hamlet/a/char/ophelia/model") "shot").2.1
    (by decide)
  have W3 := (get_as_upto ⟨"bla/bla", "", []⟩ "asset").2.2 rfl
  exact ⟨W1.1, W1.2, W2, W3⟩

/-! ## Claim theorems: parent truncates by one (C5) -/

/-- C5. For a typed Sid with at least two fields (unique keys, truncated
sequence known to the template table), parent is a new Sid whose field
sequence is the original truncated by one; with exactly one field, parent
is the Sid itself (its copy); untyped Sids give the empty Sid (sid.py
lines 344 to 373). -/
theorem parent_truncates (x : Sid) (front : Fields) (pk pv qk qv : String)
    (hx : x.fields = front ++ [(pk, pv), (qk, qv)])
    (hnd : (dkeys x.fields).Nodup)
    (ht : (allTemplates.find? (fun t =>
      t.tfields.map Prod.fst == dkeys (front ++ [(pk, pv)]))).isSome = true) :
    ((x.parent).fields = x.fields.dropLast ∧ (x.parent).type ≠ "" ∧ x.parent ≠ x)
    ∧ (∀ y : Sid, y.fields.length = 1 → y.parent = y)
    ∧ (∀ y : Sid, y.fields = [] → y.parent = emptySid) := by
  refine ⟨?_, ?_, ?_⟩
  · have hlen : x.fields.length = front.length + 2 := by
      rw [hx]
      simp
    have hparent : x.parent = x.getAsS pk := by
      unfold Sid.parent
      rw [if_neg (by
        simp only [List.isEmpty_iff]
        intro h2
        rw [h2] at hlen
        simp at hlen), if_neg (by simp [hlen])]
      have hkeys : dkeys x.fields = dkeys front ++ [pk, qk] := by
        rw [hx]
        simp [dkeys]
      have hidx : (dkeys x.fields).getD (x.fields.length - 2) "" = pk := by
        rw [hkeys, hlen]
        have hfl : front.length + 2 - 2 = (dkeys front).length := by
          simp [dkeys]
        rw [hfl, List.getD_append_right _ _ _ _ (le_refl _), Nat.sub_self]
        rfl
      rw [hidx]
    have hsplit : x.fields = front ++ (pk, pv) :: [(qk, qv)] := by
      rw [hx]
    have hok := get_as_found x front [(qk, qv)] pk pv hsplit hnd
    obtain ⟨t, hts⟩ := Option.isSome_iff_exists.mp ht
    have htm : t ∈ allTemplates := List.mem_of_find?_eq_some hts
    have hgs : x.getAsS pk = dictToSid (front ++ [(pk, pv)]) := by
      unfold Sid.getAsS
      rw [hok]
    have hdict : dictToSid (front ++ [(pk, pv)]) =
        ⟨joinSlash (dvals (front ++ [(pk, pv)])), t.name, front ++ [(pk, pv)]⟩ := by
      unfold dictToSid
      rw [hts]
    have hdrop : x.fields.dropLast = front ++ [(pk, pv)] := by
      rw [hx]
      rw [show front ++ [(pk, pv), (qk, qv)] = (front ++ [(pk, pv)]) ++ [(qk, qv)] by simp]
      exact List.dropLast_concat
    refine ⟨?_, ?_, ?_⟩
    · rw [hparent, hgs, hdict, hdrop]
    · rw [hparent, hgs, hdict]
      exact allTemplates_name_ne t htm
    · rw [hparent, hgs, hdict]
      intro hc
      have hfc := congrArg Sid.fields hc
      simp only at hfc
      rw [hx] at hfc
      have := congrArg List.length hfc
      simp at this
  · intro y hy
    unfold Sid.parent
    rw [if_neg (by
      simp only [List.isEmpty_iff]
      intro h2
      rw [h2] at hy
      simp at hy), if_pos (by simp [hy])]
    rfl
  · intro y hy
    unfold Sid.parent
    rw [if_pos (by simp [hy])]

/-- C5, witness: a concrete four-field shot Sid truncates to its sequence
ancestor, a one-field Sid is its own parent, an untyped Sid has the empty
parent. -/
theorem parent_truncates_witness :
    ((sidFromString "hamlet/s/sq030/sh0100").parent).fields
      = (sidFromString "hamlet/s/sq030/sh0100").fields.dropLast
    ∧ ((sidFromString "hamlet/s/sq030/sh0100").parent).type ≠ ""
    ∧ (sidFromString "hamlet/s/sq030/sh0100").parent ≠ sidFromString "hamlet/s/sq030/sh0100"
    ∧ (sidFromString "hamlet").parent = sidFromString "hamlet"
    ∧ Sid.parent ⟨"bla/bla", "", []⟩ = emptySid := by
  have W := parent_truncates (sidFromString "hamlet/s/sq030/sh0100")
    [("project", "hamlet"), ("type", "s")] "sequence" "sq030" "shot" "sh0100"
    (by decide) (by decide) (by decide)
  exact ⟨W.1.1, W.1.2.1, W.1.2.2, W.2.1 (sidFromString "hamlet") (by decide),
    W.2.2 ⟨"bla/bla", "", []⟩ rfl⟩

/-! ## Lemmas on dict operations, for the overlay claim -/

theorem ite_cond_true {α : Type} (b : Bool) (h : b = true) (a c : α) :
    (if b = true then a else c) = a := by
  rw [h]
  simp

theorem ite_cond_false {α : Type} (b : Bool) (h : b = false) (a c : α) :
    (if b = true then a else c) = c := by
  rw [h]
  simp

theorem dget_cons (k1 v1 : String) (t : Fields) (k : String) :
    dget ((k1, v1) :: t) k = if (k1 == k) = true then some v1 else dget t k := by
  unfold dget
  by_cases h : (k1 == k) = true
  · rw [List.find?_cons_of_pos _ (by simpa using h)]
    simp [h]
  · rw [List.find?_cons_of_neg _ (by simpa using h)]
    simp [h]

theorem if_bool_false {α : Type} (a c : α) : (if false = true then a else c) = c := rfl

theorem if_bool_true {α : Type} (a c : α) : (if true = true then a else c) = a := rfl

theorem dpop_cons (k1 v1 : String) (t : Fields) (k : String) :
    dpop ((k1, v1) :: t) k =
      if (k1 != k) = true then (k1, v1) :: dpop t k else dpop t k := by
  unfold dpop
  cases h : (k1 != k)
  · rw [List.filter_cons, ite_cond_false _ (by simpa using h), if_bool_false]
  · rw [List.filter_cons, ite_cond_true _ (by simpa using h), if_bool_true]

theorem dget_dpop_self (d : Fields) (k : String) : dget (dpop d k) k = none := by
  unfold dget dpop
  rw [List.find?_eq_none.mpr]
  · rfl
  · intro p hp
    have h2 := (List.mem_filter.mp hp).2
    simp only [bne_iff_ne, ne_eq] at h2
    simp [h2]

theorem dget_dpop_ne (d : Fields) (k k' : String) (h : k' ≠ k) :
    dget (dpop d k) k' = dget d k' := by
  induction d with
  | nil => rfl
  | cons p t ih =>
    obtain ⟨k1, v1⟩ := p
    rw [dpop_cons]
    cases hk1 : (k1 != k)
    · rw [if_bool_false]
      have hk1e : k1 = k := by simpa using hk1
      have hb : (k1 == k') = false := by
        cases hc : (k1 == k')
        · rfl
        · exfalso
          have h2 : k1 = k' := by simpa using hc
          exact h (h2 ▸ hk1e)
      rw [ih, dget_cons, ite_cond_false _ hb]
    · rw [if_bool_true, dget_cons, dget_cons, ih]

theorem dget_map_self (d : Fields) (k v : String) (h : k ∈ dkeys d) :
    dget (d.map (fun p => if p.1 == k then (k, v) else p)) k = some v := by
  induction d with
  | nil => simp [dkeys] at h
  | cons p t ih =>
    obtain ⟨k1, v1⟩ := p
    rw [List.map_cons]
    cases hk1 : (k1 == k)
    · rw [if_bool_false, dget_cons, ite_cond_false _ hk1]
      apply ih
      simp only [dkeys, List.map_cons, List.mem_cons] at h
      rcases h with h | h
      · exfalso
        rw [h] at hk1
        simp at hk1
      · exact h
    · rw [if_bool_true, dget_cons, ite_cond_true _ (by simp)]

theorem dget_map_ne (d : Fields) (k v k' : String) (h : k' ≠ k) :
    dget (d.map (fun p => if p.1 == k then (k, v) else p)) k' = dget d k' := by
  induction d with
  | nil => rfl
  | cons p t ih =>
    obtain ⟨k1, v1⟩ := p
    rw [List.map_cons]
    cases hk1 : (k1 == k)
    · rw [if_bool_false, dget_cons, dget_cons, ih]
    · rw [if_bool_true]
      have hk1e : k1 = k := by simpa using hk1
      have hb : (k == k') = false := by
        cases hc : (k == k')
        · rfl
        · exfalso
          have h2 : k = k' := by simpa using hc
          exact h h2.symm
      have hb1 : (k1 == k') = false := by
        rw [hk1e]
        exact hb
      rw [dget_cons, dget_cons, ih, ite_cond_false _ hb, ite_cond_false _ hb1]

theorem dget_dset_self (d : Fields) (k v : String) :
    dget (dset d k v) k = some v := by
  unfold dset
  by_cases h : hasKey d k = true
  · rw [if_pos h]
    exact dget_map_self d k v ((hasKey_true_iff d k).mp h)
  · rw [if_neg h]
    unfold dget
    rw [List.find?_append, List.find?_eq_none.mpr]
    · simp [dget]
    · intro p hp
      have hk : k ∉ dkeys d := (hasKey_false_iff d k).mp (by simpa using h)
      intro hc
      exact hk ((eq_of_beq hc) ▸ List.mem_map_of_mem Prod.fst hp)

theorem dget_dset_ne (d : Fields) (k v k' : String) (h : k' ≠ k) :
    dget (dset d k v) k' = dget d k' := by
  unfold dset
  by_cases hk : hasKey d k = true
  · rw [if_pos hk]
    exact dget_map_ne d k v k' h
  · rw [if_neg hk]
    unfold dget
    rw [List.find?_append]
    have hb : (k == k') = false := by
      cases hc : (k == k')
      · rfl
      · exfalso
        have h2 : k = k' := by simpa using hc
        exact h h2.symm
    cases hfd : List.find? (fun p => p.1 == k') d
    · simp [Option.or, List.find?, hb]
    · simp [Option.or]

theorem dget_dupdate_not_mem (d : Fields) (kv : Fields) (k : String)
    (h : k ∉ dkeys kv) : dget (dupdate d kv) k = dget d k := by
  induction kv generalizing d with
  | nil => rfl
  | cons p t ih =>
    obtain ⟨k1, w1⟩ := p
    simp only [dkeys, List.map_cons, List.mem_cons, not_or] at h
    have hstep : dupdate d ((k1, w1) :: t) = dupdate (dset d k1 w1) t := rfl
    rw [hstep, ih (dset d k1 w1) (by simpa [dkeys] using h.2), dget_dset_ne d k1 w1 k h.1]

theorem dget_dupdate_mem (d : Fields) (kv : Fields) (k w : String)
    (hmem : (k, w) ∈ kv) (hnd : (dkeys kv).Nodup) :
    dget (dupdate d kv) k = some w := by
  induction kv generalizing d with
  | nil => cases hmem
  | cons p t ih =>
    obtain ⟨k1, w1⟩ := p
    have hnd' := List.nodup_cons.mp (show (k1 :: dkeys t).Nodup from hnd)
    have hstep : dupdate d ((k1, w1) :: t) = dupdate (dset d k1 w1) t := rfl
    rcases List.mem_cons.mp hmem with hh | hh
    · injection hh with hk hw
      subst hk
      subst hw
      rw [hstep, dget_dupdate_not_mem _ _ _ hnd'.1, dget_dset_self]
    · have hk1 : k ≠ k1 := by
        intro hc
        exact hnd'.1 (hc ▸ List.mem_map_of_mem Prod.fst hh)
      rw [hstep]
      exact ih (dset d k1 w1) hh hnd'.2

/-! ## Lemmas on the get_with removal loop -/

theorem dkeys_dpop (d : Fields) (k : String) :
    dkeys (dpop d k) = (dkeys d).filter (fun x => x != k) := by
  induction d with
  | nil => rfl
  | cons p t ih =>
    obtain ⟨k1, v1⟩ := p
    rw [dpop_cons]
    cases hk1 : (k1 != k)
    · rw [if_bool_false]
      rw [show dkeys ((k1, v1) :: t) = k1 :: dkeys t from rfl, List.filter_cons,
        ite_cond_false _ hk1]
      exact ih
    · rw [if_bool_true]
      rw [show dkeys ((k1, v1) :: dpop t k) = k1 :: dkeys (dpop t k) from rfl,
        show dkeys ((k1, v1) :: t) = k1 :: dkeys t from rfl, List.filter_cons,
        ite_cond_true _ hk1, ih]

theorem popNones_isSome (kwargs : List (String × Option String)) :
    ∀ d : Fields, (kwargs.map Prod.fst).Nodup →
      (∀ k, (k, none) ∈ kwargs → k ∈ dkeys d) →
      ∃ dc, popNones d kwargs = some dc := by
  induction kwargs with
  | nil => exact fun d _ _ => ⟨d, rfl⟩
  | cons p t ih =>
    intro d hnd hmem
    obtain ⟨k1, o1⟩ := p
    have hnd' := List.nodup_cons.mp (show (k1 :: t.map Prod.fst).Nodup from hnd)
    cases o1 with
    | none =>
      have hk1 : hasKey d k1 = true :=
        (hasKey_true_iff d k1).mpr (hmem k1 (List.mem_cons_self _ _))
      have hrec := ih (dpop d k1) hnd'.2 (by
        intro k hk
        have hkd := hmem k (List.mem_cons_of_mem _ hk)
        have hne : k ≠ k1 := by
          intro hc
          exact hnd'.1 (hc ▸ List.mem_map_of_mem Prod.fst hk)
        rw [dkeys_dpop]
        exact List.mem_filter.mpr ⟨hkd, by simpa using hne⟩)
      obtain ⟨dc, hdc⟩ := hrec
      exact ⟨dc, by simp only [popNones, hk1, if_true, hdc]⟩
    | some v =>
      have hrec := ih d hnd'.2 (fun k hk => hmem k (List.mem_cons_of_mem _ hk))
      obtain ⟨dc, hdc⟩ := hrec
      exact ⟨dc, by simp only [popNones, hdc]⟩

theorem popNones_none_mono (kwargs : List (String × Option String)) :
    ∀ d dc : Fields, ∀ k : String, popNones d kwargs = some dc →
      dget d k = none → dget dc k = none := by
  induction kwargs with
  | nil =>
    intro d dc k h hget
    injection h with h2
    exact h2 ▸ hget
  | cons p t ih =>
    intro d dc k h hget
    obtain ⟨k1, o1⟩ := p
    cases o1 with
    | none =>
      by_cases hk1 : hasKey d k1 = true
      · simp only [popNones, hk1, if_true] at h
        apply ih _ _ _ h
        by_cases hkk : k = k1
        · exact hkk ▸ dget_dpop_self d k1
        · rw [dget_dpop_ne d k1 k hkk]
          exact hget
      · simp only [popNones, hk1] at h
        cases h
    | some v =>
      simp only [popNones] at h
      exact ih _ _ _ h hget

theorem popNones_removes (kwargs : List (String × Option String)) :
    ∀ d dc : Fields, ∀ k : String, popNones d kwargs = some dc →
      (k, none) ∈ kwargs → dget dc k = none := by
  induction kwargs with
  | nil =>
    intro d dc k _ hmem
    cases hmem
  | cons p t ih =>
    intro d dc k h hmem
    obtain ⟨k1, o1⟩ := p
    cases o1 with
    | none =>
      by_cases hk1 : hasKey d k1 = true
      · simp only [popNones, hk1, if_true] at h
        rcases List.mem_cons.mp hmem with hh | hh
        · injection hh with hk _
          subst hk
          exact popNones_none_mono t _ _ _ h (dget_dpop_self d k)
        · exact ih _ _ _ h hh
      · simp only [popNones, hk1] at h
        cases h
    | some v =>
      simp only [popNones] at h
      rcases List.mem_cons.mp hmem with hh | hh
      · injection hh with _ hv
        cases hv
      · exact ih _ _ _ h hh

/-! ## Lemmas on the surviving kwargs -/

theorem somePairs_keys_sub (kwargs : List (String × Option String)) (k : String)
    (h : k ∈ dkeys (somePairs kwargs)) : k ∈ kwargs.map Prod.fst := by
  induction kwargs with
  | nil => cases h
  | cons p t ih =>
    obtain ⟨k1, o1⟩ := p
    cases o1 with
    | none =>
      have : somePairs ((k1, none) :: t) = somePairs t := rfl
      rw [this] at h
      exact List.mem_cons_of_mem _ (ih h)
    | some v =>
      have hsp : somePairs ((k1, some v) :: t) = (k1, v) :: somePairs t := rfl
      rw [hsp] at h
      rcases List.mem_cons.mp h with hh | hh
      · exact hh ▸ List.mem_cons_self _ _
      · exact List.mem_cons_of_mem _ (ih hh)

theorem none_not_in_somePairs (kwargs : List (String × Option String)) (k : String)
    (hnd : (kwargs.map Prod.fst).Nodup) (hmem : (k, none) ∈ kwargs) :
    k ∉ dkeys (somePairs kwargs) := by
  induction kwargs with
  | nil => cases hmem
  | cons p t ih =>
    obtain ⟨k1, o1⟩ := p
    have hnd' := List.nodup_cons.mp (show (k1 :: t.map Prod.fst).Nodup from hnd)
    cases o1 with
    | none =>
      have hsp : somePairs ((k1, none) :: t) = somePairs t := rfl
      rw [hsp]
      rcases List.mem_cons.mp hmem with hh | hh
      · injection hh with hk _
        subst hk
        intro hc
        exact hnd'.1 (somePairs_keys_sub t k hc)
      · exact ih hnd'.2 hh
    | some v =>
      have hsp : somePairs ((k1, some v) :: t) = (k1, v) :: somePairs t := rfl
      rw [hsp]
      rcases List.mem_cons.mp hmem with hh | hh
      · injection hh with _ hv
        cases hv
      · intro hc
        rcases List.mem_cons.mp hc with hc2 | hc2
        · have hkmem : k ∈ t.map Prod.fst := List.mem_map_of_mem Prod.fst hh
          have he : k = k1 := hc2
          rw [he] at hkmem
          exact hnd'.1 hkmem
        · exact ih hnd'.2 hh hc2

theorem some_in_somePairs (kwargs : List (String × Option String)) (k w : String)
    (hmem : (k, some w) ∈ kwargs) : (k, w) ∈ somePairs kwargs := by
  unfold somePairs
  exact List.mem_filterMap.mpr ⟨(k, some w), hmem, rfl⟩

theorem somePairs_keys_nodup (kwargs : List (String × Option String))
    (hnd : (kwargs.map Prod.fst).Nodup) : (dkeys (somePairs kwargs)).Nodup := by
  induction kwargs with
  | nil => exact List.nodup_nil
  | cons p t ih =>
    obtain ⟨k1, o1⟩ := p
    have hnd' := List.nodup_cons.mp (show (k1 :: t.map Prod.fst).Nodup from hnd)
    cases o1 with
    | none => exact ih hnd'.2
    | some v =>
      have hsp : somePairs ((k1, some v) :: t) = (k1, v) :: somePairs t := rfl
      rw [hsp]
      refine List.nodup_cons.mpr ⟨?_, ih hnd'.2⟩
      intro hc
      exact hnd'.1 (somePairs_keys_sub t k1 hc)

/-! ## Claim theorems: get_with overlay (C4) -/

/-- C4, counterexample. The claim states that whenever re-rendering the
overlaid fields matches no template, the result is the joined field
values as a best-effort untyped string. At this input the re-render does
fail (the node key sequence matches no template), yet because the joined
string contains a search symbol the source re-resolves it (sid.py lines
510 to 511) and the result is a typed Sid, not the untyped string. -/
theorem get_with_fallback_typed_cx :
    (dictToSid [("node", "*")]).type = ""
    ∧ Sid.get_with ⟨"hamlet", "project", [("project", "hamlet")]⟩
        [("node", some "*"), ("project", none)]
        = some ⟨"*", "project", [("project", "*")]⟩
    ∧ (Sid.mk "*" "project" [("project", "*")]).type ≠ "" := by
  decide

/-- C4, amended. For a typed Sid and a kwargs overlay whose keys are
unique and whose None valued keys are present: every None valued key is
removed from the copied fields, every retained key holds its given value
(so an empty string value keeps the key with an empty value), and the
result re-renders the remaining fields; when the re-render fails to match
a template, the joined value string is re-resolved as a string input only
if it contains a search symbol (possibly yielding a typed Sid), and
otherwise the untyped identifier carrying the joined string is returned
as is. -/
theorem get_with_overlay (x : Sid) (kwargs : List (String × Option String))
    (hty : x.fields ≠ [])
    (hnd : (kwargs.map Prod.fst).Nodup)
    (hpres : ∀ k, (k, none) ∈ kwargs → k ∈ dkeys x.fields) :
    ∃ d, overlayDict x.fields kwargs = some d
    ∧ (∀ k, (k, none) ∈ kwargs → dget d k = none)
    ∧ (∀ k w, (k, some w) ∈ kwargs → dget d k = some w)
    ∧ x.get_with kwargs =
        (if ((dictToSid d).is_searchb && !(dictToSid d).truthy) = true
         then some (sidFromString (joinSlash (dvals d)))
         else some (dictToSid d)) := by
  obtain ⟨dc, hdc⟩ := popNones_isSome kwargs x.fields hnd hpres
  refine ⟨dupdate dc (somePairs kwargs), ?_, ?_, ?_, ?_⟩
  · simp [overlayDict, hdc]
  · intro k hk
    rw [dget_dupdate_not_mem _ _ _ (none_not_in_somePairs kwargs k hnd hk)]
    exact popNones_removes kwargs x.fields dc k hdc hk
  · intro k w hk
    exact dget_dupdate_mem dc (somePairs kwargs) k w
      (some_in_somePairs kwargs k w hk) (somePairs_keys_nodup kwargs hnd)
  · have hov : overlayDict x.fields kwargs = some (dupdate dc (somePairs kwargs)) := by
      simp [overlayDict, hdc]
    unfold Sid.get_with
    rw [if_neg (by simp [List.isEmpty_iff, hty]), hov]

/-- C4, witness: removing the task key of a concrete asset task Sid
re-renders to the asset ancestor type. -/
theorem get_with_overlay_witness :
    overlayDict (sidFromString "hamlet/a/char/ophelia/model").fields [("task", none)]
      = some [("project", "hamlet"), ("type", "a"), ("assettype", "char"), ("asset", "ophelia")]
    ∧ dget [("project", "hamlet"), ("type", "a"), ("assettype", "char"), ("asset", "ophelia")]
        "task" = none
    ∧ (sidFromString "hamlet/a/char/ophelia/model").get_with [("task", none)]
      = some (dictToSid [("project", "hamlet"), ("type", "a"), ("assettype", "char"),
          ("asset", "ophelia")]) := by
  have W := get_with_overlay (sidFromString "hamlet/a/char/ophelia/model") [("task", none)]
    (by decide) (by decide)
    (by
      intro k hk
      have hk2 : k = "task" := by
        rcases List.mem_cons.mp hk with hh | hh
        · injection hh with h1 _
        · cases hh
      rw [hk2]
      decide)
  obtain ⟨d, hd, hrem, _, hres⟩ := W
  have hdval : d = [("project", "hamlet"), ("type", "a"), ("assettype", "char"),
      ("asset", "ophelia")] := by
    have : some d = some [("project", "hamlet"), ("type", "a"), ("assettype", "char"),
        ("asset", "ophelia")] := by
      rw [← hd]
      decide
    injection this
  subst hdval
  refine ⟨hd, hrem "task" (List.mem_cons_self _ _), ?_⟩
  rw [hres]
  decide

/-! ## Lemmas on the heap model -/

theorem readRef_append_lt :
    ∀ (st : Store) (d : Fields) (r : Nat), r < st.length →
      readRef (st ++ [d]) r = readRef st r := by
  intro st
  induction st with
  | nil =>
    intro d r h
    cases h
  | cons a t ih =>
    intro d r h
    cases r with
    | zero => rfl
    | succ n => exact ih d n (Nat.lt_of_succ_lt_succ h)

theorem readRef_append_self (st : Store) (d : Fields) :
    readRef (st ++ [d]) st.length = d := by
  induction st with
  | nil => rfl
  | cons a t ih => exact ih

theorem readRef_write_ne :
    ∀ (st : Store) (r2 r : Nat) (dd : Fields), r ≠ r2 →
      readRef (writeRef st r2 dd) r = readRef st r := by
  intro st
  induction st with
  | nil =>
    intro r2 r dd _
    rfl
  | cons a t ih =>
    intro r2 r dd h
    cases r2 with
    | zero =>
      cases r with
      | zero => exact absurd rfl h
      | succ n => rfl
    | succ m =>
      cases r with
      | zero => rfl
      | succ n => exact ih m n dd (fun hc => h (congrArg Nat.succ hc))

theorem writeRef_length :
    ∀ (st : Store) (r : Nat) (dd : Fields), (writeRef st r dd).length = st.length := by
  intro st
  induction st with
  | nil =>
    intro r dd
    rfl
  | cons a t ih =>
    intro r dd
    cases r with
    | zero => rfl
    | succ m => exact congrArg Nat.succ (ih m dd)

theorem setItemH_frame (st : Store) (r i : Nat) (k v : String) (h : i ≠ r) :
    readRef (setItemH st r k v) i = readRef st i :=
  readRef_write_ne st r i _ h

theorem setItemH_length (st : Store) (r : Nat) (k v : String) :
    (setItemH st r k v).length = st.length :=
  writeRef_length st r _

theorem getAsLoopH_frame :
    ∀ (items : Fields) (key : String) (r : Nat) (st : Store) (i : Nat), i ≠ r →
      readRef (getAsLoopH items key r st) i = readRef st i := by
  intro items
  induction items with
  | nil =>
    intro key r st i _
    rfl
  | cons p rest ih =>
    intro key r st i h
    obtain ⟨k, v⟩ := p
    show readRef (if (k == key) = true then setItemH st r k v
      else getAsLoopH rest key r (setItemH st r k v)) i = readRef st i
    cases hk : (k == key)
    · rw [if_bool_false, ih key r _ i h, setItemH_frame st r i k v h]
    · rw [if_bool_true, setItemH_frame st r i k v h]

theorem popLoopH_frame :
    ∀ (kwargs : List (String × Option String)) (r : Nat) (st st2 : Store) (i : Nat),
      popLoopH kwargs r st = some st2 → i ≠ r →
      readRef st2 i = readRef st i := by
  intro kwargs
  induction kwargs with
  | nil =>
    intro r st st2 i h _
    injection h with h2
    rw [h2]
  | cons p t ih =>
    intro r st st2 i h hne
    obtain ⟨k, o⟩ := p
    cases o with
    | none =>
      by_cases hk : hasKey (readRef st r) k = true
      · simp only [popLoopH, hk, if_true] at h
        rw [ih r _ st2 i h hne, readRef_write_ne st r i _ hne]
      · simp only [popLoopH, hk] at h
        cases h
    | some v =>
      simp only [popLoopH] at h
      exact ih r st st2 i h hne

theorem popLoopH_length :
    ∀ (kwargs : List (String × Option String)) (r : Nat) (st st2 : Store),
      popLoopH kwargs r st = some st2 → st2.length = st.length := by
  intro kwargs
  induction kwargs with
  | nil =>
    intro r st st2 h
    injection h with h2
    rw [h2]
  | cons p t ih =>
    intro r st st2 h
    obtain ⟨k, o⟩ := p
    cases o with
    | none =>
      by_cases hk : hasKey (readRef st r) k = true
      · simp only [popLoopH, hk, if_true] at h
        rw [ih r _ st2 h, writeRef_length]
      · simp only [popLoopH, hk] at h
        cases h
    | some v =>
      simp only [popLoopH] at h
      exact ih r st st2 h

theorem updLoopH_frame :
    ∀ (kwargs : List (String × Option String)) (r : Nat) (st : Store) (i : Nat),
      i ≠ r → readRef (updLoopH kwargs r st) i = readRef st i := by
  intro kwargs
  induction kwargs with
  | nil =>
    intro r st i _
    rfl
  | cons p t ih =>
    intro r st i h
    obtain ⟨k, o⟩ := p
    cases o with
    | none => exact ih r st i h
    | some v =>
      show readRef (updLoopH t r (setItemH st r k v)) i = readRef st i
      rw [ih r _ i h, setItemH_frame st r i k v h]

theorem updLoopH_length :
    ∀ (kwargs : List (String × Option String)) (r : Nat) (st : Store),
      (updLoopH kwargs r st).length = st.length := by
  intro kwargs
  induction kwargs with
  | nil =>
    intro r st
    rfl
  | cons p t ih =>
    intro r st
    obtain ⟨k, o⟩ := p
    cases o with
    | none => exact ih r st
    | some v =>
      show (updLoopH t r (setItemH st r k v)).length = st.length
      rw [ih r _, setItemH_length]

/-! ## Claim theorems: immutability through the public interface (C9) -/

/-- C9. In the heap model of the source operations: the fields property
returns a fresh copy of the internal dict with equal content, so an item
assignment on the returned object leaves the receiver's dict unchanged;
the copying loop of get_as and the data-copy of get_with write only their
freshly allocated objects, so both return Sids holding new dict objects
and leave the receiver's string, type and fields unchanged (sid.py lines
237 to 251, 438 to 442, 495 to 507). -/
theorem sid_ops_do_not_mutate (st : Store) (self : SidObj) (k v key : String)
    (kwargs : List (String × Option String)) (h : self.fref < st.length) :
    (readRef (fieldsPropH st self).2 (fieldsPropH st self).1 = readRef st self.fref
      ∧ (fieldsPropH st self).1 ≠ self.fref
      ∧ readRef (setItemH (fieldsPropH st self).2 (fieldsPropH st self).1 k v) self.fref
          = readRef st self.fref)
    ∧ (readRef (getAsH st self key).2 self.fref = readRef st self.fref
      ∧ (getAsH st self key).1.fref ≠ self.fref)
    ∧ (∀ obj st2, getWithH st self kwargs = some (obj, st2) →
        readRef st2 self.fref = readRef st self.fref ∧ obj.fref ≠ self.fref) := by
  have hne : self.fref ≠ st.length := Nat.ne_of_lt h
  refine ⟨⟨?_, ?_, ?_⟩, ⟨?_, ?_⟩, ?_⟩
  · exact readRef_append_self st (readRef st self.fref)
  · exact (Nat.ne_of_lt h).symm
  · show readRef (setItemH (st ++ [readRef st self.fref]) st.length k v) self.fref
      = readRef st self.fref
    rw [setItemH_frame _ _ _ _ _ hne, readRef_append_lt st _ _ h]
  · show readRef (getAsLoopH (readRef st self.fref) key st.length (st ++ [[]])) self.fref
      = readRef st self.fref
    rw [getAsLoopH_frame _ _ _ _ _ hne, readRef_append_lt st _ _ h]
  · exact (Nat.ne_of_lt h).symm
  · intro obj st2 hsome
    unfold getWithH at hsome
    simp only [alloc] at hsome
    split at hsome
    · injection hsome with hpair
      injection hpair with h1 h2
      subst h1
      subst h2
      exact ⟨readRef_append_lt st _ _ h, (Nat.ne_of_lt h).symm⟩
    · split at hsome
      next => cases hsome
      next stp hp =>
        have hlen : stp.length = st.length + 1 := by
          rw [popLoopH_length kwargs st.length _ stp hp]
          simp
        have hreads : readRef (updLoopH kwargs st.length stp) self.fref
            = readRef st self.fref := by
          rw [updLoopH_frame _ _ _ _ hne, popLoopH_frame kwargs st.length _ stp _ hp hne,
            readRef_append_lt st _ _ h]
        have hulen : (updLoopH kwargs st.length stp).length = st.length + 1 := by
          rw [updLoopH_length, hlen]
        split at hsome
        · injection hsome with hpair
          injection hpair with h1 h2
          subst h1
          subst h2
          refine ⟨?_, ?_⟩
          · rw [readRef_append_lt _ _ _ (by rw [hulen]; exact Nat.lt_succ_of_lt h)]
            exact hreads
          · show (updLoopH kwargs st.length stp).length ≠ self.fref
            rw [hulen]
            exact (Nat.ne_of_lt (Nat.lt_succ_of_lt h)).symm
        · injection hsome with hpair
          injection hpair with h1 h2
          subst h1
          subst h2
          exact ⟨hreads, (Nat.ne_of_lt h).symm⟩

/-- C9, witness at a concrete one-object store. -/
theorem sid_ops_do_not_mutate_witness :
    readRef (fieldsPropH [[("project", "hamlet")]] ⟨"hamlet", "project", 0⟩).2
        (fieldsPropH [[("project", "hamlet")]] ⟨"hamlet", "project", 0⟩).1
      = readRef [[("project", "hamlet")]] 0
    ∧ (fieldsPropH [[("project", "hamlet")]] ⟨"hamlet", "project", 0⟩).1 ≠ 0
    ∧ readRef (setItemH (fieldsPropH [[("project", "hamlet")]] ⟨"hamlet", "project", 0⟩).2
        (fieldsPropH [[("project", "hamlet")]] ⟨"hamlet", "project", 0⟩).1 "project" "x") 0
      = readRef [[("project", "hamlet")]] 0
    ∧ readRef (getAsH [[("project", "hamlet")]] ⟨"hamlet", "project", 0⟩ "project").2 0
      = readRef [[("project", "hamlet")]] 0
    ∧ (getAsH [[("project", "hamlet")]] ⟨"hamlet", "project", 0⟩ "project").1.fref ≠ 0 := by
  have W := sid_ops_do_not_mutate [[("project", "hamlet")]] ⟨"hamlet", "project", 0⟩
    "project" "x" "project" [] (by decide)
  exact ⟨W.1.1, W.1.2.1, W.1.2.2, W.2.1.1, W.2.1.2⟩

end Spil
